import Mathlib

/-
  Verification development for the ezmesh repository.

  The Go sources are shallowly embedded below.  Go strings and byte
  slices are modelled as lists of naturals (each element a byte value),
  uint64 arithmetic as naturals reduced modulo 2 ^ 64 where the source
  overflows, and fallible Go functions as Except-valued functions.
  Functions of the external collaborators (the vendored mesh transport
  and the Go standard library) that are not part of the sources are
  modelled from the specification; each such definition carries a doc
  comment saying so.
-/

namespace Ezmesh

/-- Go strings and byte slices: a sequence of byte values. -/
abbrev GoStr := List Nat

/-- Go errors, modelled by their message bytes. -/
abbrev Err := GoStr

/-- PeerName is a uint64 (peername.go line 23); modelled as a natural
number, below 2 ^ 64 at every construction site. -/
abbrev PeerName := Nat

/-- Message payloads are byte slices. -/
abbrev Msg := List Nat

/-- The big-endian bytes of a value: bytesBE k v is the k-byte
big-endian rendering of the low k bytes of v. -/
def bytesBE : Nat → Nat → List Nat
  | 0, _ => []
  | k + 1, v => bytesBE k (v / 256) ++ [v % 256]

/-- binary.BigEndian.Uint64 on an 8-byte slice: big-endian accumulation. -/
def beUint64 (bs : List Nat) : Nat := bs.foldl (fun a b => a * 256 + b) 0

/-- binary.LittleEndian.Uint64 on an 8-byte slice: little-endian
accumulation. -/
def leUint64 : List Nat → Nat
  | [] => 0
  | b :: rest => b + 256 * leUint64 rest

/-! ## SHA-512 (crypto/sha512, per FIPS 180-4) -/

/-- Right rotation of a 64-bit word held in a natural below 2 ^ 64. -/
def rotr (n x : Nat) : Nat := x / 2 ^ n + x % 2 ^ n * 2 ^ (64 - n)

/-- Logical right shift. -/
def shr (n x : Nat) : Nat := x / 2 ^ n

/-- Bitwise complement of a 64-bit word. -/
def not64 (x : Nat) : Nat := x ^^^ (2 ^ 64 - 1)

/-- SHA-512 choice function. -/
def ch (x y z : Nat) : Nat := (x &&& y) ^^^ (not64 x &&& z)

/-- SHA-512 majority function. -/
def maj (x y z : Nat) : Nat := (x &&& y) ^^^ (x &&& z) ^^^ (y &&& z)

/-- SHA-512 Sigma0. -/
def bigSigma0 (x : Nat) : Nat := rotr 28 x ^^^ rotr 34 x ^^^ rotr 39 x

/-- SHA-512 Sigma1. -/
def bigSigma1 (x : Nat) : Nat := rotr 14 x ^^^ rotr 18 x ^^^ rotr 41 x

/-- SHA-512 sigma0. -/
def smallSigma0 (x : Nat) : Nat := rotr 1 x ^^^ rotr 8 x ^^^ shr 7 x

/-- SHA-512 sigma1. -/
def smallSigma1 (x : Nat) : Nat := rotr 19 x ^^^ rotr 61 x ^^^ shr 6 x

/-- The eighty SHA-512 round constants. -/
def K512 : List Nat :=
  [4794697086780616226, 8158064640168781261, 13096744586834688815,
   16840607885511220156, 4131703408338449720, 6480981068601479193,
   10538285296894168987, 12329834152419229976, 15566598209576043074,
   1334009975649890238, 2608012711638119052, 6128411473006802146,
   8268148722764581231, 9286055187155687089, 11230858885718282805,
   13951009754708518548, 16472876342353939154, 17275323862435702243,
   1135362057144423861, 2597628984639134821, 3308224258029322869,
   5365058923640841347, 6679025012923562964, 8573033837759648693,
   10970295158949994411, 12119686244451234320, 12683024718118986047,
   13788192230050041572, 14330467153632333762, 15395433587784984357,
   489312712824947311, 1452737877330783856, 2861767655752347644,
   3322285676063803686, 5560940570517711597, 5996557281743188959,
   7280758554555802590, 8532644243296465576, 9350256976987008742,
   10552545826968843579, 11727347734174303076, 12113106623233404929,
   14000437183269869457, 14369950271660146224, 15101387698204529176,
   15463397548674623760, 17586052441742319658, 1182934255886127544,
   1847814050463011016, 2177327727835720531, 2830643537854262169,
   3796741975233480872, 4115178125766777443, 5681478168544905931,
   6601373596472566643, 7507060721942968483, 8399075790359081724,
   8693463985226723168, 9568029438360202098, 10144078919501101548,
   10430055236837252648, 11840083180663258601, 13761210420658862357,
   14299343276471374635, 14566680578165727644, 15097957966210449927,
   16922976911328602910, 17689382322260857208, 500013540394364858,
   748580250866718886, 1242879168328830382, 1977374033974150939,
   2944078676154940804, 3659926193048069267, 4368137639120453308,
   4836135668995329356, 5532061633213252278, 6448918945643986474,
   6902733635092675308, 7801388544844847127]

/-- The SHA-512 initial hash value. -/
def H512init : List Nat :=
  [7640891576956012808, 13503953896175478587, 4354685564936845355,
   11912009170470909681, 5840696475078001361, 11170449401992604703,
   2270897969802886507, 6620516959819538809]

/-- Group a byte sequence into big-endian 64-bit words. -/
def toWords64BE : List Nat → List Nat
  | b0 :: b1 :: b2 :: b3 :: b4 :: b5 :: b6 :: b7 :: rest =>
      beUint64 [b0, b1, b2, b3, b4, b5, b6, b7] :: toWords64BE rest
  | _ => []

/-- Extend the sixteen block words by k more schedule words. -/
def extendSchedule : Nat → List Nat → List Nat
  | 0, ws => ws
  | k + 1, ws =>
      let t := ws.length
      let w := (smallSigma1 (ws.getD (t - 2) 0) + ws.getD (t - 7) 0 +
                smallSigma0 (ws.getD (t - 15) 0) + ws.getD (t - 16) 0) % 2 ^ 64
      extendSchedule k (ws ++ [w])

/-- One SHA-512 compression round on the eight-word working state. -/
def sha512Round (st : List Nat) (kw : Nat × Nat) : List Nat :=
  match st with
  | [a, b, c, d, e, f, g, h] =>
      let t1 := (h + bigSigma1 e + ch e f g + kw.1 + kw.2) % 2 ^ 64
      let t2 := (bigSigma0 a + maj a b c) % 2 ^ 64
      [(t1 + t2) % 2 ^ 64, a, b, c, (d + t1) % 2 ^ 64, e, f, g]
  | other => other

/-- Compress one 128-byte block into the running hash state. -/
def processBlock (H : List Nat) (block : List Nat) : List Nat :=
  let ws := extendSchedule 64 (toWords64BE block)
  let st := (K512.zip ws).foldl sha512Round H
  (H.zip st).map (fun p => (p.1 + p.2) % 2 ^ 64)

/-- SHA-512 padding: a 0x80 byte, zeros to 112 mod 128, then the
128-bit big-endian bit length. -/
def padMessage (msg : List Nat) : List Nat :=
  let L := msg.length
  let z := (239 - L % 128) % 128
  msg ++ 128 :: List.replicate z 0 ++ bytesBE 16 (8 * L)

/-- Split a byte sequence into 128-byte blocks. -/
def chunks128 : List Nat → List (List Nat)
  | [] => []
  | b :: rest => (b :: rest).take 128 :: chunks128 (rest.drop 127)
  termination_by l => l.length
  decreasing_by simp [List.length_drop]; omega

/-- The SHA-512 digest (64 bytes) of a byte sequence. -/
def sha512 (msg : List Nat) : List Nat :=
  (((chunks128 (padMessage msg)).foldl processBlock H512init).map (bytesBE 8)).flatten

/-! ## Hex digits and colon-separated strings -/

/-- Hex digit value of a byte, accepting both letter cases. -/
def hexVal (b : Nat) : Option Nat :=
  if 48 ≤ b ∧ b ≤ 57 then some (b - 48)
  else if 97 ≤ b ∧ b ≤ 102 then some (b - 87)
  else if 65 ≤ b ∧ b ≤ 70 then some (b - 55)
  else none

/-- Lowercase hex digit byte of a value below 16. -/
def hexChar (v : Nat) : Nat := if v < 10 then v + 48 else v + 87

/-- Two lowercase hex digit bytes of a byte value. -/
def octetHex (o : Nat) : GoStr := [hexChar (o / 16), hexChar (o % 16)]

/-- Split a byte string on the colon byte (58). -/
def splitOnColon : GoStr → List GoStr
  | [] => [[]]
  | b :: rest =>
      if b = 58 then [] :: splitOnColon rest
      else
        match splitOnColon rest with
        | [] => [[b]]
        | g :: gs => (b :: g) :: gs

/-- Join byte strings with the colon byte (58). -/
def intercalateColon : List GoStr → GoStr
  | [] => []
  | [g] => g
  | g :: g2 :: gs => g ++ 58 :: intercalateColon (g2 :: gs)

/-- Parse one colon-separated group of one or two hex digits as a byte. -/
def parseOctet : GoStr → Option Nat
  | [c] => hexVal c
  | [c1, c2] =>
      match hexVal c1, hexVal c2 with
      | some v1, some v2 => some (16 * v1 + v2)
      | _, _ => none
  | _ => none

/-- Parse every group as a byte, failing if any group fails. -/
def parseOctets : List GoStr → Option (List Nat)
  | [] => some []
  | g :: gs =>
      match parseOctet g, parseOctets gs with
      | some o, some os => some (o :: os)
      | _, _ => none

/-! ## Models of the vendored mesh transport's peer-name functions -/

/-- Parse-failure error value; the message text of the underlying
library's error is not modelled. -/
def parseErr : Err := [63]

/-- Modelled from the spec: mesh.PeerNameFromString parses a
colon-separated sequence of hex octets (MAC-address-like), supporting
elision of contiguous zero groups as in IPv6 addresses, producing at
most 6 significant bytes accumulated big-endian; it fails with a parse
error on malformed input (wrong digit count, too many groups, non-hex
characters). -/
def meshPeerNameFromString (s : GoStr) : Except Err PeerName :=
  let gs := splitOnColon s
  if gs.any List.isEmpty then
    let pre := gs.takeWhile (fun g => !g.isEmpty)
    let rest := gs.dropWhile (fun g => !g.isEmpty)
    let post := rest.dropWhile List.isEmpty
    if post.any List.isEmpty ∨ 6 ≤ pre.length + post.length then .error parseErr
    else
      match parseOctets pre, parseOctets post with
      | some osPre, some osPost =>
          .ok ((osPre ++ List.replicate (6 - pre.length - post.length) 0 ++ osPost).foldl
            (fun a o => a * 256 + o) 0)
      | _, _ => .error parseErr
  else if gs.length ≤ 6 then
    match parseOctets gs with
    | some os => .ok (os.foldl (fun a o => a * 256 + o) 0)
    | none => .error parseErr
  else .error parseErr

/-- Modelled from the spec: mesh.PeerName.String renders the identity's
low 48 bits as six colon-separated lowercase hex octets, big-endian. -/
def meshPeerNameString (n : PeerName) : GoStr :=
  intercalateColon ((bytesBE 6 (n % 2 ^ 48)).map octetHex)

/-! ## peername.go -/

/-- PeerNameFromStringHash (peername.go lines 37-40): the first 8 bytes
of the SHA-512 hash of the string, read as a little-endian uint64. -/
def PeerNameFromStringHash (s : GoStr) : PeerName :=
  leUint64 ((sha512 s).take 8)

/-- PeerNameFromMACAddr (peername.go lines 47-50): a wrapper around
mesh.PeerNameFromString. -/
def PeerNameFromMACAddr (a : GoStr) : Except Err PeerName :=
  meshPeerNameFromString a

/-- UnStringPeerName (peername.go lines 71-74): also a wrapper around
mesh.PeerNameFromString. -/
def UnStringPeerName (s : GoStr) : Except Err PeerName :=
  meshPeerNameFromString s

/-- The String method of PeerName (peername.go lines 65-67): delegates
to mesh.PeerName.String. -/
def PeerName.String (n : PeerName) : GoStr :=
  meshPeerNameString n

/-- Modelled from the spec: the canonical textual rendering of a
hardware address (net.HardwareAddr.String of the Go standard library):
empty for an empty address, otherwise the bytes as colon-separated
lowercase hex octet pairs. -/
def hardwareAddrString (h : List Nat) : GoStr :=
  match h with
  | [] => []
  | _ => intercalateColon (h.map octetHex)

/-- PeerNameFromHardwareAddr (peername.go lines 54-62): eight bytes are
read big-endian; fewer go through the MAC-address parser on the textual
rendering; more go through the string hash of the textual rendering. -/
def PeerNameFromHardwareAddr (h : List Nat) : Except Err PeerName :=
  if h.length = 8 then .ok (beUint64 h)
  else if h.length < 8 then PeerNameFromMACAddr (hardwareAddrString h)
  else .ok (PeerNameFromStringHash (hardwareAddrString h))

/-! ## receiver.go -/

/-- The gd type (receiver.go line 247): a byte slice satisfying the
transport's GossipData contract. -/
abbrev gd := List Nat

/-- The Encode method of gd (receiver.go lines 249-251): the bytes as a
single-element sequence of chunks. -/
def gd.Encode (g : gd) : List (List Nat) := [g]

/-- The Merge method of gd (receiver.go lines 252-260): a copy of this
container's bytes with every chunk of the other GossipData's Encode()
appended in order.  The other datum, a Go interface value used only
through its Encode method, is passed as its encoding. -/
def gd.Merge (g : gd) (oEncode : List (List Nat)) : gd :=
  g ++ oEncode.flatten

/-- The pointer to the local Peer handed to handlers.  Go's Peer struct
stores the handlers themselves, a self-reference a Lean structure cannot
contain, and the dispatcher only ever forwards the pointer r.p
unchanged, so the pointer is modelled as an abstract reference value. -/
structure PeerRef where
  ref : Nat
deriving DecidableEq

/-- The handler type func(*Peer, PeerName, []byte) error. -/
abbrev Handler := PeerRef → PeerName → Msg → Option Err

/-- The receiver struct (receiver.go lines 203-205).  In Go it holds
p *Peer and reads p.OnMessage / p.OnBroadcast at dispatch time; here the
two handler slots of that Peer are carried alongside the reference. -/
structure Receiver where
  p : PeerRef
  OnMessage : Option Handler
  OnBroadcast : Option Handler

/-- The outcome of a dispatch: the list of handler invocations that
occurred, each with its exact arguments, and the returned error. -/
structure HandleResult where
  calls : List (PeerRef × PeerName × Msg)
  result : Option Err
deriving DecidableEq

/-- The handle method (receiver.go lines 234-244): ignore the message
if no handler is installed, otherwise call f(r.p, PeerName(n), msg). -/
def handle (r : Receiver) (f : Option Handler) (n : PeerName) (msg : Msg) : HandleResult :=
  match f with
  | none => ⟨[], none⟩
  | some f => ⟨[(r.p, n, msg)], f r.p n msg⟩

/-- OnGossipUnicast (receiver.go lines 209-211): dispatch to the
OnMessage handler. -/
def OnGossipUnicast (r : Receiver) (src : PeerName) (msg : Msg) : HandleResult :=
  handle r r.OnMessage src msg

/-- OnGossipBroadcast (receiver.go lines 215-220): return gd(msg)
together with the outcome of dispatching to the OnBroadcast handler. -/
def OnGossipBroadcast (r : Receiver) (src : PeerName) (msg : Msg) : gd × HandleResult :=
  (msg, handle r r.OnBroadcast src msg)

/-! ## ezmesh.go -/

/-- PROTOVERSION (ezmesh.go line 21). -/
def PROTOVERSION : Nat := 2

/-- A net.TCPAddr, modelled by its String() rendering, the only use the
embedded code makes of it. -/
structure TCPAddr where
  rendered : GoStr
deriving DecidableEq

/-- The mesh.Config passed to mesh.NewRouter (ezmesh.go lines 114-122).
TrustedSubnets, always the empty list, is omitted. -/
structure MeshConfig where
  Host : GoStr
  Port : Nat
  ProtocolMinVersion : Nat
  Password : GoStr
  ConnLimit : Int
  PeerDiscovery : Bool
deriving DecidableEq

/-- The Config struct (ezmesh.go lines 43-79).  Go nil slices and nil
pointers are modelled by none. -/
structure Config where
  Address : GoStr
  Port : Nat
  Key : GoStr
  AutoConnect : Bool
  ConnLimit : Int
  NickName : GoStr
  Name : Option PeerName
  InitialPeers : Option (List TCPAddr)
  OnMessage : Option Handler
  OnBroadcast : Option Handler

/-- The Peer struct built by New (ezmesh.go lines 24-40).  The TX, RX
and Router handles of the external transport are represented by the
data New hands to the transport when creating them: the router's
configuration, name and nickname, the gossip channel name, and whether
the listener was started. -/
structure Peer where
  OnMessage : Option Handler
  OnBroadcast : Option Handler
  routerConfig : MeshConfig
  name : PeerName
  nickName : GoStr
  channelName : GoStr
  started : Bool

/-- The channel name handed to router.NewGossip (ezmesh.go line 135):
the bytes of the string defaultchannel. -/
def defaultChannel : GoStr :=
  [100, 101, 102, 97, 117, 108, 116, 99, 104, 97, 110, 110, 101, 108]

/-- The message bytes of the fatal error (ezmesh.go line 99): the
string no nickname. -/
def errNoNickname : Err :=
  [110, 111, 32, 110, 105, 99, 107, 110, 97, 109, 101]

/-- Modelled from the spec: the transport's initiateConnections dials
every address in the list and returns a per-address error list, one
entry for each failing address, without aborting on the first failure.
The unknowable dial outcomes are abstracted by the oracle errOf giving
each address's failure, if any. -/
def InitiateConnections (errOf : GoStr → Option Err) (addrs : List GoStr) : List Err :=
  addrs.filterMap errOf

/-- The Connect method (ezmesh.go lines 162-172): nil addresses return
nil at once; otherwise every address is rendered to its string form and
handed to the transport's InitiateConnections. -/
def Connect (errOf : GoStr → Option Err) (addrs : Option (List TCPAddr)) : Option (List Err) :=
  match addrs with
  | none => none
  | some l => some (InitiateConnections errOf (l.map TCPAddr.rendered))

/-- The defaulting steps New applies to its local copy of the
configuration (ezmesh.go lines 101-109): derive Name from the nickname
hash when nil, clamp a negative ConnLimit to zero. -/
def NewInternalConfig (config : Config) : Config :=
  let config :=
    if config.Name = none then
      { config with Name := some (PeerNameFromStringHash config.NickName) }
    else config
  if config.ConnLimit < 0 then { config with ConnLimit := 0 } else config

/-- The three results of New: the peer, the connection-error slice and
the fatal error. -/
structure NewResult where
  peer : Option Peer
  errs : Option (List Err)
  fatal : Option Err

/-- New (ezmesh.go lines 96-148): reject an empty nickname, default the
name and connection limit, create the router and gossip channel, start
the listener when an address was configured, and connect to the initial
peers.  The transport's dial outcomes are abstracted by errOf. -/
def New (errOf : GoStr → Option Err) (config : Config) : NewResult :=
  if config.NickName = [] then ⟨none, none, some errNoNickname⟩
  else
    let cfg := NewInternalConfig config
    ⟨some
      { OnMessage := cfg.OnMessage
        OnBroadcast := cfg.OnBroadcast
        routerConfig :=
          { Host := cfg.Address
            Port := cfg.Port
            ProtocolMinVersion := PROTOVERSION
            Password := cfg.Key
            ConnLimit := cfg.ConnLimit
            PeerDiscovery := cfg.AutoConnect }
        name := cfg.Name.getD 0
        nickName := cfg.NickName
        channelName := defaultChannel
        started := !cfg.Address.isEmpty },
      Connect errOf cfg.InitialPeers,
      none⟩

/-- Go passes Config to New by value: the callee operates on a copy and
the caller's variable afterwards still holds the original.  NewCall
pairs the caller's configuration after the call with the call's
result. -/
def NewCall (errOf : GoStr → Option Err) (c : Config) : Config × NewResult :=
  (c, New errOf c)

/-- The length of a possibly-nil Go slice. -/
def goSliceLen {α : Type} : Option (List α) → Nat
  | none => 0
  | some l => l.length

/-- One entry of Router.Peers.Descriptions(): the transport's current
knowledge of a peer's name and nickname. -/
structure PeerDescription where
  Name : PeerName
  NickName : GoStr
deriving DecidableEq

/-- PeerNameFromNickName (ezmesh.go lines 177-184): linear scan of the
membership view for the first entry with the given nickname.  The view
parameter is the ordered collection Router.Peers.Descriptions() returns
at call time. -/
def PeerNameFromNickName : List PeerDescription → GoStr → PeerName × Bool
  | [], _ => (0, false)
  | pd :: rest, nick =>
      if pd.NickName = nick then (pd.Name, true) else PeerNameFromNickName rest nick

/-- NickNameFromPeerName (ezmesh.go lines 189-196): linear scan of the
membership view for the first entry with the given name. -/
def NickNameFromPeerName : List PeerDescription → PeerName → GoStr × Bool
  | [], _ => ([], false)
  | pd :: rest, name =>
      if pd.Name = name then (pd.NickName, true) else NickNameFromPeerName rest name

/-- A lowercase hex digit byte. -/
def isLowerHexDigit (b : Nat) : Bool :=
  decide ((48 ≤ b ∧ b ≤ 57) ∨ (97 ≤ b ∧ b ≤ 102))

/-- A canonical group: exactly two lowercase hex digit bytes. -/
def isCanonGroup : GoStr → Bool
  | [c1, c2] => isLowerHexDigit c1 && isLowerHexDigit c2
  | _ => false

/-- A well-formed canonical 6-octet colon string: six colon-separated
groups of exactly two lowercase hex digits each. -/
def isCanonical6 (s : GoStr) : Bool :=
  (splitOnColon s).length == 6 && (splitOnColon s).all isCanonGroup

/-! ## Helper lemmas -/

lemma splitOnColon_ne_nil (s : GoStr) : splitOnColon s ≠ [] := by
  cases s with
  | nil => simp [splitOnColon]
  | cons b rest =>
      unfold splitOnColon
      split_ifs
      · simp
      · cases hsp : splitOnColon rest <;> simp

lemma intercalate_split (s : GoStr) : intercalateColon (splitOnColon s) = s := by
  induction s with
  | nil => rfl
  | cons b rest ih =>
      unfold splitOnColon
      split_ifs with hb
      · subst hb
        cases hsp : splitOnColon rest with
        | nil => exact absurd hsp (splitOnColon_ne_nil rest)
        | cons g gs =>
            rw [hsp] at ih
            simp only [intercalateColon, List.nil_append]
            rw [ih]
      · cases hsp : splitOnColon rest with
        | nil => exact absurd hsp (splitOnColon_ne_nil rest)
        | cons g gs =>
            rw [hsp] at ih
            cases gs with
            | nil =>
                simp only [intercalateColon] at ih ⊢
                rw [ih]
            | cons g2 gs2 =>
                simp only [intercalateColon] at ih ⊢
                rw [← ih]
                simp

lemma digit_roundtrip (b : Nat) (h : isLowerHexDigit b = true) :
    ∃ v, hexVal b = some v ∧ v < 16 ∧ hexChar v = b := by
  rw [isLowerHexDigit, decide_eq_true_eq] at h
  unfold hexVal hexChar
  rcases h with h | h
  · exact ⟨b - 48, by rw [if_pos h], by omega, by rw [if_pos (by omega)]; omega⟩
  · refine ⟨b - 87, ?_, by omega, ?_⟩
    · rw [if_neg (by omega), if_pos h]
    · rw [if_neg (by omega)]; omega

lemma group_roundtrip (g : GoStr) (h : isCanonGroup g = true) :
    ∃ o, parseOctet g = some o ∧ o < 256 ∧ octetHex o = g := by
  rcases g with _ | ⟨c1, _ | ⟨c2, _ | ⟨c3, rest⟩⟩⟩
  · simp [isCanonGroup] at h
  · simp [isCanonGroup] at h
  · rw [isCanonGroup, Bool.and_eq_true] at h
    obtain ⟨h1, h2⟩ := h
    obtain ⟨v1, hv1, hv1b, hc1⟩ := digit_roundtrip c1 h1
    obtain ⟨v2, hv2, hv2b, hc2⟩ := digit_roundtrip c2 h2
    refine ⟨16 * v1 + v2, ?_, by omega, ?_⟩
    · simp [parseOctet, hv1, hv2]
    · unfold octetHex
      have e1 : (16 * v1 + v2) / 16 = v1 := by omega
      have e2 : (16 * v1 + v2) % 16 = v2 := by omega
      rw [e1, e2, hc1, hc2]
  · simp [isCanonGroup] at h

lemma groups_roundtrip : ∀ gs : List GoStr, gs.all isCanonGroup = true →
    ∃ os, parseOctets gs = some os ∧ (∀ o ∈ os, o < 256) ∧ os.map octetHex = gs ∧
      os.length = gs.length := by
  intro gs
  induction gs with
  | nil => exact fun _ => ⟨[], rfl, by simp, rfl, rfl⟩
  | cons g gs ih =>
      intro h
      rw [List.all_cons, Bool.and_eq_true] at h
      obtain ⟨hg, hgs⟩ := h
      obtain ⟨o, ho, hob, hox⟩ := group_roundtrip g hg
      obtain ⟨os, hos, hosb, hosm, hoslen⟩ := ih hgs
      refine ⟨o :: os, by simp [parseOctets, ho, hos], ?_, by simp [hox, hosm], by simp [hoslen]⟩
      intro x hx
      rcases List.mem_cons.mp hx with rfl | hx
      · exact hob
      · exact hosb x hx

lemma canon_no_empty (gs : List GoStr) (h : gs.all isCanonGroup = true) :
    gs.any List.isEmpty = false := by
  rw [List.all_eq_true] at h
  rw [List.any_eq_false]
  intro g hg
  have hc := h g hg
  rcases g with _ | ⟨c, cs⟩
  · simp [isCanonGroup] at hc
  · simp

lemma foldl_byte_lt : ∀ os : List Nat, (∀ o ∈ os, o < 256) →
    os.foldl (fun a o => a * 256 + o) 0 < 256 ^ os.length := by
  intro os
  induction os using List.reverseRecOn with
  | nil => intro; simp
  | append_singleton xs x ih =>
      intro h
      rw [List.foldl_append]
      simp only [List.foldl_cons, List.foldl_nil, List.length_append, List.length_cons,
        List.length_nil]
      have hx : x < 256 := h x (by simp)
      have hxs := ih fun o ho => h o (by simp [ho])
      have hpow : (256 : Nat) ^ (xs.length + 0 + 1) = 256 ^ xs.length * 256 := by
        rw [Nat.add_zero, pow_succ]
      rw [hpow]
      omega

lemma bytesBE_foldl : ∀ (os : List Nat) (a : Nat), (∀ o ∈ os, o < 256) →
    bytesBE os.length (os.foldl (fun x o => x * 256 + o) a) = os := by
  intro os
  induction os using List.reverseRecOn with
  | nil => intro a _; rfl
  | append_singleton xs x ih =>
      intro a h
      rw [List.foldl_append]
      simp only [List.foldl_cons, List.foldl_nil, List.length_append, List.length_cons,
        List.length_nil, Nat.add_zero]
      simp only [bytesBE]
      have hx : x < 256 := h x (by simp)
      have hdiv : (xs.foldl (fun x o => x * 256 + o) a * 256 + x) / 256 =
          xs.foldl (fun x o => x * 256 + o) a := by omega
      have hmod : (xs.foldl (fun x o => x * 256 + o) a * 256 + x) % 256 = x := by omega
      rw [hdiv, hmod, ih a fun o ho => h o (by simp [ho])]

lemma pnfn_not_found (view : List PeerDescription) (nick : GoStr)
    (h : ∀ pd ∈ view, pd.NickName ≠ nick) :
    PeerNameFromNickName view nick = (0, false) := by
  induction view with
  | nil => rfl
  | cons pd rest ih =>
      simp only [PeerNameFromNickName]
      rw [if_neg (h pd (List.mem_cons_self pd rest))]
      exact ih fun q hq => h q (List.mem_cons_of_mem _ hq)

lemma pnfn_found (pre : List PeerDescription) (pd : PeerDescription)
    (rest : List PeerDescription) (nick : GoStr)
    (hpre : ∀ q ∈ pre, q.NickName ≠ nick) (hm : pd.NickName = nick) :
    PeerNameFromNickName (pre ++ pd :: rest) nick = (pd.Name, true) := by
  induction pre with
  | nil => simp [PeerNameFromNickName, hm]
  | cons q pre ih =>
      simp only [List.cons_append, PeerNameFromNickName]
      rw [if_neg (hpre q (List.mem_cons_self q pre))]
      exact ih fun x hx => hpre x (List.mem_cons_of_mem _ hx)

lemma nnfp_not_found (view : List PeerDescription) (name : PeerName)
    (h : ∀ pd ∈ view, pd.Name ≠ name) :
    NickNameFromPeerName view name = ([], false) := by
  induction view with
  | nil => rfl
  | cons pd rest ih =>
      simp only [NickNameFromPeerName]
      rw [if_neg (h pd (List.mem_cons_self pd rest))]
      exact ih fun q hq => h q (List.mem_cons_of_mem _ hq)

lemma nnfp_found (pre : List PeerDescription) (pd : PeerDescription)
    (rest : List PeerDescription) (name : PeerName)
    (hpre : ∀ q ∈ pre, q.Name ≠ name) (hm : pd.Name = name) :
    NickNameFromPeerName (pre ++ pd :: rest) name = (pd.NickName, true) := by
  induction pre with
  | nil => simp [NickNameFromPeerName, hm]
  | cons q pre ih =>
      simp only [List.cons_append, NickNameFromPeerName]
      rw [if_neg (hpre q (List.mem_cons_self q pre))]
      exact ih fun x hx => hpre x (List.mem_cons_of_mem _ hx)

lemma nic_InitialPeers (c : Config) :
    (NewInternalConfig c).InitialPeers = c.InitialPeers := by
  simp only [NewInternalConfig]
  split_ifs <;> simp

lemma nic_NickName (c : Config) :
    (NewInternalConfig c).NickName = c.NickName := by
  simp only [NewInternalConfig]
  split_ifs <;> simp

lemma nic_Name_none (c : Config) (h : c.Name = none) :
    (NewInternalConfig c).Name = some (PeerNameFromStringHash c.NickName) := by
  unfold NewInternalConfig
  split_ifs <;> simp_all <;> split_ifs <;> simp_all

lemma nic_Name_some (c : Config) (pn : PeerName) (h : c.Name = some pn) :
    (NewInternalConfig c).Name = some pn := by
  unfold NewInternalConfig
  split_ifs <;> simp_all <;> split_ifs <;> simp_all

lemma nic_ConnLimit_neg (c : Config) (h : c.ConnLimit < 0) :
    (NewInternalConfig c).ConnLimit = 0 := by
  unfold NewInternalConfig
  split_ifs <;> simp_all

lemma New_ok (errOf : GoStr → Option Err) (c : Config) (h : c.NickName ≠ []) :
    New errOf c =
      ⟨some
        { OnMessage := (NewInternalConfig c).OnMessage
          OnBroadcast := (NewInternalConfig c).OnBroadcast
          routerConfig :=
            { Host := (NewInternalConfig c).Address
              Port := (NewInternalConfig c).Port
              ProtocolMinVersion := PROTOVERSION
              Password := (NewInternalConfig c).Key
              ConnLimit := (NewInternalConfig c).ConnLimit
              PeerDiscovery := (NewInternalConfig c).AutoConnect }
          name := (NewInternalConfig c).Name.getD 0
          nickName := (NewInternalConfig c).NickName
          channelName := defaultChannel
          started := !(NewInternalConfig c).Address.isEmpty },
        Connect errOf (NewInternalConfig c).InitialPeers, none⟩ := by
  unfold New
  rw [if_neg h]

/-! ## Claims -/

/-- C1: PeerNameFromHardwareAddr dispatches on length: exactly 8 bytes
are reinterpreted as a big-endian 64-bit integer with no error, fewer
than 8 go through hex-colon parsing (PeerNameFromMACAddr) of the
canonical textual rendering, and more than 8 go through
PeerNameFromStringHash of that rendering with no error. -/
theorem hardware_addr_dispatch (h : List Nat) :
    (h.length = 8 → PeerNameFromHardwareAddr h = .ok (beUint64 h)) ∧
    (h.length < 8 → PeerNameFromHardwareAddr h = PeerNameFromMACAddr (hardwareAddrString h)) ∧
    (h.length > 8 → PeerNameFromHardwareAddr h = .ok (PeerNameFromStringHash (hardwareAddrString h))) := by
  unfold PeerNameFromHardwareAddr
  refine ⟨fun h8 => ?_, fun hlt => ?_, fun hgt => ?_⟩ <;> split_ifs <;> first | rfl | omega

/-- Witness for C1 at addresses of lengths 8, 3 and 9. -/
theorem hardware_addr_dispatch_witness :
    PeerNameFromHardwareAddr [1, 2, 3, 4, 5, 6, 7, 8] = .ok (beUint64 [1, 2, 3, 4, 5, 6, 7, 8]) ∧
    PeerNameFromHardwareAddr [1, 2, 3] = PeerNameFromMACAddr (hardwareAddrString [1, 2, 3]) ∧
    PeerNameFromHardwareAddr [1, 2, 3, 4, 5, 6, 7, 8, 9] =
      .ok (PeerNameFromStringHash (hardwareAddrString [1, 2, 3, 4, 5, 6, 7, 8, 9])) :=
  ⟨(hardware_addr_dispatch _).1 (by decide),
   (hardware_addr_dispatch _).2.1 (by decide),
   (hardware_addr_dispatch _).2.2 (by decide)⟩

/-- C2: Merge followed by Encode yields a single chunk holding the
first container's bytes followed by every chunk of the other datum's
encoding in order, and Encode on any container is the one-element
sequence of its own bytes. -/
theorem gd_merge_encode (a b : gd) (oEnc : List (List Nat)) :
    gd.Encode (gd.Merge a oEnc) = [a ++ oEnc.flatten] ∧
    gd.Encode a = [a] ∧
    gd.Encode (gd.Merge a (gd.Encode b)) = [a ++ b] := by
  refine ⟨rfl, rfl, ?_⟩
  simp [gd.Encode, gd.Merge]

/-- C4: OnGossipBroadcast returns a container whose Encode is exactly
the received payload, whatever the handler registration and outcome,
and its error component is the handler's outcome, nil when no handler
is registered. -/
theorem broadcast_returns_payload_container (r : Receiver) (src : PeerName) (msg : Msg) :
    gd.Encode (OnGossipBroadcast r src msg).1 = [msg] ∧
    (OnGossipBroadcast r src msg).2.result =
      (match r.OnBroadcast with
       | none => none
       | some H => H r.p src msg) := by
  refine ⟨rfl, ?_⟩
  cases h : r.OnBroadcast <;> simp [OnGossipBroadcast, handle, h]

/-- C5: with no unicast handler registered OnGossipUnicast performs no
invocation and returns nil; with a handler H registered it invokes H
exactly once with the local peer reference, the sender and the payload,
and returns H's outcome unchanged. -/
theorem unicast_dispatch (r : Receiver) (src : PeerName) (msg : Msg) :
    (r.OnMessage = none → OnGossipUnicast r src msg = ⟨[], none⟩) ∧
    (∀ H, r.OnMessage = some H →
      OnGossipUnicast r src msg = ⟨[(r.p, src, msg)], H r.p src msg⟩) := by
  constructor
  · intro h; simp [OnGossipUnicast, handle, h]
  · intro H h; simp [OnGossipUnicast, handle, h]

/-- Witness for C5: one receiver without and one with a registered
handler. -/
theorem unicast_dispatch_witness :
    OnGossipUnicast ⟨⟨0⟩, none, none⟩ 1 [2] = ⟨[], none⟩ ∧
    OnGossipUnicast ⟨⟨0⟩, some (fun _ _ m => some m), none⟩ 1 [2] =
      ⟨[(⟨0⟩, 1, [2])], some [2]⟩ :=
  ⟨(unicast_dispatch _ 1 [2]).1 rfl, (unicast_dispatch _ 1 [2]).2 _ rfl⟩

/-- C8: Connect with a nil address list returns nil at once, and with
an empty list returns an empty error list; in both cases no errors. -/
theorem connect_empty_no_errors (errOf : GoStr → Option Err) (addrs : Option (List TCPAddr))
    (h : goSliceLen addrs = 0) :
    goSliceLen (Connect errOf addrs) = 0 ∧ Connect errOf none = none ∧
    Connect errOf (some []) = some [] := by
  refine ⟨?_, rfl, rfl⟩
  cases addrs with
  | none => rfl
  | some l =>
      cases l with
      | nil => rfl
      | cons a as => simp [goSliceLen] at h

/-- Witness for C8 at the empty address list. -/
theorem connect_empty_no_errors_witness :
    goSliceLen (Connect (fun _ => some [1]) (some ([] : List TCPAddr))) = 0 ∧
    Connect (fun _ => some [1]) none = none ∧
    Connect (fun _ => some [1]) (some []) = some [] :=
  connect_empty_no_errors (fun _ => some [1]) (some []) rfl

/-- C9: a nickname lookup that finds no match returns the zero name
with false, an identity lookup that finds no match returns the empty
nickname with false, and when a match exists the first matching entry
in the view's order is returned with true. -/
theorem lookup_first_match (view : List PeerDescription) (nick : GoStr) (name : PeerName) :
    ((∀ pd ∈ view, pd.NickName ≠ nick) → PeerNameFromNickName view nick = (0, false)) ∧
    ((∀ pd ∈ view, pd.Name ≠ name) → NickNameFromPeerName view name = ([], false)) ∧
    (∀ pre pd rest, view = pre ++ pd :: rest → (∀ q ∈ pre, q.NickName ≠ nick) →
      pd.NickName = nick → PeerNameFromNickName view nick = (pd.Name, true)) ∧
    (∀ pre pd rest, view = pre ++ pd :: rest → (∀ q ∈ pre, q.Name ≠ name) →
      pd.Name = name → NickNameFromPeerName view name = (pd.NickName, true)) := by
  refine ⟨pnfn_not_found view nick, nnfp_not_found view name, ?_, ?_⟩
  · intro pre pd rest hv hpre hm
    rw [hv]; exact pnfn_found pre pd rest nick hpre hm
  · intro pre pd rest hv hpre hm
    rw [hv]; exact nnfp_found pre pd rest name hpre hm

/-- Witness for C9 on a three-entry view with a duplicated nickname. -/
theorem lookup_first_match_witness :
    PeerNameFromNickName [⟨1, [97]⟩, ⟨2, [98]⟩, ⟨3, [98]⟩] [99] = (0, false) ∧
    NickNameFromPeerName [⟨1, [97]⟩, ⟨2, [98]⟩, ⟨3, [98]⟩] 9 = ([], false) ∧
    PeerNameFromNickName [⟨1, [97]⟩, ⟨2, [98]⟩, ⟨3, [98]⟩] [98] = (2, true) ∧
    NickNameFromPeerName [⟨1, [97]⟩, ⟨2, [98]⟩, ⟨3, [98]⟩] 3 = ([98], true) :=
  ⟨(lookup_first_match _ [99] 9).1 (by decide),
   (lookup_first_match _ [99] 9).2.1 (by decide),
   (lookup_first_match _ [98] 3).2.2.1 [⟨1, [97]⟩] ⟨2, [98]⟩ [⟨3, [98]⟩] rfl (by decide) rfl,
   (lookup_first_match _ [98] 3).2.2.2 [⟨1, [97]⟩, ⟨2, [98]⟩] ⟨3, [98]⟩ [] rfl (by decide) rfl⟩

/-- C3: New returns a non-nil fatal error exactly when the nickname is
empty, in which case the peer and the error list are nil; otherwise the
fatal error is nil and a constructed peer is returned together with the
per-address connection-error list for the initial peers. -/
theorem new_fatal_iff_empty_nickname (errOf : GoStr → Option Err) (c : Config) :
    (c.NickName = [] → New errOf c = ⟨none, none, some errNoNickname⟩) ∧
    (c.NickName ≠ [] →
      (New errOf c).fatal = none ∧ (∃ p, (New errOf c).peer = some p) ∧
      (New errOf c).errs = Connect errOf c.InitialPeers) := by
  constructor
  · intro h
    simp [New, h]
  · intro h
    rw [New_ok errOf c h]
    exact ⟨rfl, ⟨_, rfl⟩, by rw [nic_InitialPeers]⟩

/-- Witness for C3: an empty-nickname configuration and a good one. -/
theorem new_fatal_iff_empty_nickname_witness :
    New (fun _ => none) ⟨[], 0, [], false, 0, [], none, none, none, none⟩ =
      ⟨none, none, some errNoNickname⟩ ∧
    ((New (fun _ => none) ⟨[], 0, [], false, 0, [97], some 5, none, none, none⟩).fatal = none ∧
      (∃ p, (New (fun _ => none) ⟨[], 0, [], false, 0, [97], some 5, none, none, none⟩).peer =
        some p) ∧
      (New (fun _ => none) ⟨[], 0, [], false, 0, [97], some 5, none, none, none⟩).errs =
        Connect (fun _ => none)
          (Config.InitialPeers ⟨[], 0, [], false, 0, [97], some 5, none, none, none⟩)) :=
  ⟨(new_fatal_iff_empty_nickname _ _).1 rfl,
   (new_fatal_iff_empty_nickname _ _).2 (by decide)⟩

/-- C7: with a non-empty nickname and a nil Name field the constructed
peer's identity is PeerNameFromStringHash of the nickname, that is the
first 8 bytes of the SHA-512 hash of the nickname read little-endian;
a non-nil Name field is used as given. -/
theorem new_derives_name_from_nickname_hash (errOf : GoStr → Option Err) (c : Config)
    (h : c.NickName ≠ []) :
    (c.Name = none →
      (New errOf c).peer.map Peer.name = some (leUint64 ((sha512 c.NickName).take 8))) ∧
    (∀ pn, c.Name = some pn → (New errOf c).peer.map Peer.name = some pn) := by
  have hpeer : (New errOf c).peer.map Peer.name =
      some ((NewInternalConfig c).Name.getD 0) := by
    rw [New_ok errOf c h]
    rfl
  constructor
  · intro hn
    rw [hpeer, nic_Name_none c hn]
    rfl
  · intro pn hpn
    rw [hpeer, nic_Name_some c pn hpn]
    rfl

/-- Witness for C7: one configuration without and one with an explicit
name. -/
theorem new_derives_name_from_nickname_hash_witness :
    (New (fun _ => none) ⟨[], 0, [], false, 0, [97], none, none, none, none⟩).peer.map Peer.name =
      some (leUint64 ((sha512 [97]).take 8)) ∧
    (New (fun _ => none) ⟨[], 0, [], false, 0, [97], some 5, none, none, none⟩).peer.map Peer.name =
      some 5 :=
  ⟨(new_derives_name_from_nickname_hash _ _ (by decide)).1 rfl,
   (new_derives_name_from_nickname_hash _ _ (by decide)).2 5 rfl⟩

/-- C10: New receives its configuration by value, so the caller's
configuration is unchanged by the call, even though New's local copy is
rewritten exactly when the Name field is nil or the connection limit is
negative. -/
theorem new_config_by_value (errOf : GoStr → Option Err) (c : Config) :
    (NewCall errOf c).1 = c ∧
    (NewInternalConfig c = c ↔ c.Name ≠ none ∧ 0 ≤ c.ConnLimit) := by
  refine ⟨rfl, ?_, ?_⟩
  · intro he
    constructor
    · intro hn
      have hName := congrArg Config.Name he
      rw [nic_Name_none c hn, hn] at hName
      exact Option.noConfusion hName
    · by_contra hlt
      push_neg at hlt
      have hCL := congrArg Config.ConnLimit he
      rw [nic_ConnLimit_neg c hlt] at hCL
      omega
  · rintro ⟨hn, hcl⟩
    unfold NewInternalConfig
    rw [if_neg hn, if_neg (by omega)]

/-- Witness for C10 at a configuration New would not rewrite. -/
theorem new_config_by_value_witness :
    (NewCall (fun _ => none) ⟨[], 0, [], false, 0, [97], some 5, none, none, none⟩).1 =
      ⟨[], 0, [], false, 0, [97], some 5, none, none, none⟩ ∧
    NewInternalConfig ⟨[], 0, [], false, 0, [97], some 5, none, none, none⟩ =
      ⟨[], 0, [], false, 0, [97], some 5, none, none, none⟩ :=
  ⟨(new_config_by_value _ _).1,
   (new_config_by_value (fun _ => none) _).2.mpr ⟨by decide, by decide⟩⟩

/-- C6: on a well-formed colon string of exactly six lowercase hex
octets, PeerNameFromMACAddr (the same function as UnStringPeerName)
succeeds, and rendering the parsed name with String gives back the
input: String is a left inverse of the hex-colon parser on canonical
6-octet inputs. -/
theorem string_parse_left_inverse (s : GoStr) (h : isCanonical6 s = true) :
    Except.map PeerName.String (PeerNameFromMACAddr s) = Except.ok s ∧
    UnStringPeerName s = PeerNameFromMACAddr s := by
  refine ⟨?_, rfl⟩
  rw [isCanonical6, Bool.and_eq_true, beq_iff_eq] at h
  obtain ⟨hlen, hall⟩ := h
  obtain ⟨os, hparse, hbound, hmap, holen⟩ := groups_roundtrip _ hall
  have hne := canon_no_empty _ hall
  simp only [PeerNameFromMACAddr, meshPeerNameFromString]
  rw [if_neg (by simp [hne]), if_pos (by omega), hparse]
  show Except.ok (PeerName.String (os.foldl (fun a o => a * 256 + o) 0)) = Except.ok s
  have hlt : os.foldl (fun a o => a * 256 + o) 0 < 2 ^ 48 := by
    have := foldl_byte_lt os hbound
    have h6 : os.length = 6 := by omega
    rw [h6] at this
    calc os.foldl (fun a o => a * 256 + o) 0 < 256 ^ 6 := this
      _ = 2 ^ 48 := by norm_num
  simp only [PeerName.String, meshPeerNameString]
  rw [Nat.mod_eq_of_lt hlt]
  have h6 : (6 : Nat) = os.length := by omega
  rw [h6, bytesBE_foldl os 0 hbound, hmap, intercalate_split]

/-- Witness for C6 at the canonical string 01:23:45:67:89:ab. -/
theorem string_parse_left_inverse_witness :
    isCanonical6 [48, 49, 58, 50, 51, 58, 52, 53, 58, 54, 55, 58, 56, 57, 58, 97, 98] = true ∧
    Except.map PeerName.String
        (PeerNameFromMACAddr
          [48, 49, 58, 50, 51, 58, 52, 53, 58, 54, 55, 58, 56, 57, 58, 97, 98]) =
      Except.ok [48, 49, 58, 50, 51, 58, 52, 53, 58, 54, 55, 58, 56, 57, 58, 97, 98] ∧
    UnStringPeerName [48, 49, 58, 50, 51, 58, 52, 53, 58, 54, 55, 58, 56, 57, 58, 97, 98] =
      PeerNameFromMACAddr [48, 49, 58, 50, 51, 58, 52, 53, 58, 54, 55, 58, 56, 57, 58, 97, 98] :=
  ⟨by decide,
   (string_parse_left_inverse _ (by decide)).1,
   (string_parse_left_inverse _ (by decide)).2⟩

end Ezmesh
